import Mathlib

/-!
Shallow embedding of the geneparse IMPUTE2 reader (src/geneparse/impute2.py),
with theorems checking the natural-language specification against the code.

Probabilities and dosages are modelled over the rationals; the floating point
value NaN that the code uses to mark a missing call is modelled as the value
`none` of an `Option` dosage.  Python exceptions are modelled with `Except`.
-/

namespace Geneparse

/-- One per-sample probability triple, in file order:
(p_hom_ref, p_het, p_hom_coded).  The code holds these in the rows of the
reshaped array `prob` of `_parse_impute2_line`. -/
structure ProbTriple where
  homRef : ℚ
  het : ℚ
  homCoded : ℚ
deriving Repr, DecidableEq

/-- The unmasked expected dosage of one sample:
`dosage = 2 * prob[:, 2] + prob[:, 1]` in `_parse_impute2_line`. -/
def rawDosage (p : ProbTriple) : ℚ := 2 * p.homCoded + p.het

/-- One row of `np.any(prob >= self.prob_t, axis=1)` in `_parse_impute2_line`:
whether at least one of the three probabilities of the sample reaches the
threshold. -/
def anyProbGe (t : ℚ) (p : ProbTriple) : Bool :=
  t ≤ p.homRef || t ≤ p.het || t ≤ p.homCoded

/-- The dosage of one sample after the masking step of `_parse_impute2_line`:
when `prob_t > 0`, the statement
`dosage[~np.any(prob >= self.prob_t, axis=1)] = np.nan`
replaces the dosage of every sample with no probability at the threshold by
NaN (modelled as `none`); when `prob_t == 0` no sample is touched. -/
def sampleDosage (t : ℚ) (p : ProbTriple) : Option ℚ :=
  if 0 < t ∧ anyProbGe t p = false then none else some (rawDosage p)

/-- The dosage vector built by `_parse_impute2_line` from the reshaped
probability array, one entry per sample. -/
def decodeDosages (t : ℚ) (prob : List ProbTriple) : List (Option ℚ) :=
  prob.map (sampleDosage t)

end Geneparse

namespace Geneparse

/-- The disambiguated name built by the renaming loop of
`Impute2Reader.__init__`: the original marker name with the suffix `:dupN`
appended, where `N` is the value of the per-marker counter. -/
def dupSuffixName (m : String) (k : ℕ) : String := m ++ ":dup" ++ toString k

/-- The renaming loop of `Impute2Reader.__init__`: the name column is walked
in file order with a per-marker `Counter`; every occurrence of a name that
appears more than once in the whole column (pandas `duplicated(keep=False)`)
is renamed to `name:dupN` where `N` is the running count for that name.
`all` is the whole name column and `seen` the names already walked. -/
def renameDupsAux (all : List String) (seen : List String) :
    List String → List String
  | [] => []
  | n :: rest =>
    (if 1 < all.count n then dupSuffixName n (seen.count n + 1) else n) ::
      renameDupsAux all (seen ++ [n]) rest

/-- The renamed name column produced by `Impute2Reader.__init__` on a column
with duplicated names. -/
def renameDups (names : List String) : List String := renameDupsAux names [] names

/-- The alias list `self._dup_markers[m]` built by `Impute2Reader.__init__`:
the loop appends the new name of every occurrence of `m`, in file order.
Modelled as the renamed values at the positions of the original column that
hold `m`. -/
def dupMarkersOf (names : List String) (m : String) : List String :=
  ((names.zip (renameDups names)).filter (fun q => q.1 == m)).map Prod.snd

/-- The key set of `self._dup_markers`: the names that occur more than once
in the original name column (`duplicated_marker_counts.index`). -/
def dupKeys (names : List String) : List String :=
  (names.filter (fun n => decide (1 < names.count n))).dedup

/-- The index-name integrity logic of `Impute2Reader.__init__`: the first
`set_index(..., verify_integrity=True)` succeeds iff the name column has no
duplicates; otherwise the renaming pass runs and the second
`set_index(..., verify_integrity=True)` raises (modelled as `none`) unless
the renamed column is unique. -/
def resolveNames (names : List String) : Option (List String) :=
  if names.Nodup then some names
  else if (renameDups names).Nodup then some (renameDups names) else none

lemma renameDupsAux_length (all : List String) :
    ∀ (rest seen : List String), (renameDupsAux all seen rest).length = rest.length := by
  intro rest
  induction rest with
  | nil => intro seen; rfl
  | cons n rest ih => intro seen; simp [renameDupsAux, ih]

lemma renameDupsAux_getElem? (all : List String) :
    ∀ (rest seen : List String) (i : ℕ) (n : String), rest[i]? = some n →
      (renameDupsAux all seen rest)[i]? =
        some (if 1 < all.count n
          then dupSuffixName n ((seen ++ rest.take i).count n + 1)
          else n) := by
  intro rest
  induction rest with
  | nil => intro seen i n h; simp at h
  | cons m rest ih =>
    intro seen i n h
    match i with
    | 0 =>
      simp only [List.getElem?_cons_zero, Option.some.injEq] at h
      subst h
      simp [renameDupsAux]
    | Nat.succ i =>
      simp only [List.getElem?_cons_succ] at h
      have := ih (seen ++ [m]) i n h
      simp only [renameDupsAux, List.getElem?_cons_succ]
      rw [this, List.take_succ_cons, List.append_assoc, List.singleton_append]

lemma renameDupsAux_aliases (all : List String) (m : String)
    (hm : 1 < all.count m) :
    ∀ (rest seen : List String),
      ((rest.zip (renameDupsAux all seen rest)).filter
          (fun q => q.1 == m)).map Prod.snd =
        (List.range (rest.count m)).map
          (fun k => dupSuffixName m (seen.count m + k + 1)) := by
  intro rest
  induction rest with
  | nil => intro seen; simp [renameDupsAux]
  | cons n rest ih =>
    intro seen
    by_cases hn : n = m
    · subst hn
      simp only [renameDupsAux, if_pos hm, List.zip_cons_cons]
      rw [List.filter_cons_of_pos (by simp), List.map_cons, ih (seen ++ [n])]
      have hc : (n :: rest).count n = rest.count n + 1 := by
        simp [List.count_cons]
      rw [hc, List.range_succ_eq_map, List.map_cons, List.map_map]
      congr 1
      apply List.map_congr_left
      intro k _
      simp only [Function.comp_apply]
      congr 1
      simp [List.count_append]
      omega
    · simp only [renameDupsAux, List.zip_cons_cons]
      rw [List.filter_cons_of_neg (by simp [hn]), ih (seen ++ [n])]
      have h1 : (seen ++ [n]).count m = seen.count m := by
        simp [List.count_append, List.count_singleton', hn]
      have h2 : (n :: rest).count m = rest.count m := by
        simp [List.count_cons, hn]
      rw [h1, h2]

/-- C2: for every name column, the duplicate-resolution pass keeps the length
of the column; the occurrence at position `i` of a name that appears more
than once is renamed (including the first occurrence) to `name:dupN` with `N`
its 1-based occurrence count in file order, and unduplicated names are kept
unchanged; the duplicate map records for every colliding name its aliases
`name:dup1 .. name:dupC` in file order; and when the resolution completes
(the final integrity check does not raise) the resulting column has no
duplicate identifier. -/
theorem duplicate_resolution_spec (names : List String) :
    (renameDups names).length = names.length ∧
    (∀ (i : ℕ) (n : String), names[i]? = some n →
      (renameDups names)[i]? =
        some (if 1 < names.count n
          then n ++ ":dup" ++ toString ((names.take i).count n + 1)
          else n)) ∧
    (∀ m : String, 1 < names.count m →
      dupMarkersOf names m =
        (List.range (names.count m)).map
          (fun k => m ++ ":dup" ++ toString (k + 1))) ∧
    (∀ l, resolveNames names = some l → l.Nodup) := by
  refine ⟨renameDupsAux_length names names [], ?_, ?_, ?_⟩
  · intro i n h
    have := renameDupsAux_getElem? names names [] i n h
    rw [renameDups, this]
    simp [dupSuffixName]
  · intro m hm
    have := renameDupsAux_aliases names m hm names []
    rw [dupMarkersOf, renameDups, this]
    apply List.map_congr_left
    intro k _
    simp [dupSuffixName]
  · intro l h
    rw [resolveNames] at h
    by_cases h1 : names.Nodup
    · rw [if_pos h1] at h
      cases h
      exact h1
    · rw [if_neg h1] at h
      by_cases h2 : (renameDups names).Nodup
      · rw [if_pos h2] at h
        cases h
        exact h2
      · rw [if_neg h2] at h
        cases h

/-- Witness for C2, from the worked example of the specification: the name
`rs1` appearing three times yields the aliases `rs1:dup1`, `rs1:dup2`,
`rs1:dup3` in file order, every occurrence (including the first) being
renamed. -/
theorem duplicate_resolution_spec_witness :
    (renameDups ["rs1", "rs2", "rs1", "rs1"])[3]? = some "rs1:dup3" ∧
    dupMarkersOf ["rs1", "rs2", "rs1", "rs1"] "rs1" =
      ["rs1:dup1", "rs1:dup2", "rs1:dup3"] := by
  have h := duplicate_resolution_spec ["rs1", "rs2", "rs1", "rs1"]
  constructor
  · have h2 := h.2.1 3 "rs1" rfl
    rw [h2]
    decide
  · have h3 := h.2.2.1 "rs1" (by decide)
    rw [h3]
    decide

/-- One row of the index frame `self._impute2_index`: the columns extracted
by `get_index(filename, cols=[0, 1, 2], names=["chrom", "name", "pos"])`
plus the seek column and the multiallelic column. -/
structure IndexRow where
  chrom : ℕ
  name : String
  pos : ℕ
  seek : ℕ
  multiallelic : Bool
deriving Repr, DecidableEq

/-- The comparison under pandas `duplicated(["chrom", "pos"], keep=False)`:
two index rows agree on the chromosome and position columns. -/
def samePair (a b : IndexRow) : Bool := a.chrom == b.chrom && a.pos == b.pos

/-- The multiallelic marking of `Impute2Reader.__init__`: the column starts
as `False` everywhere and `duplicated(["chrom", "pos"], keep=False)` sets it
on every row whose (chrom, pos) pair occurs in two or more rows of the
frame. -/
def setMultiallelic (rows : List IndexRow) : List IndexRow :=
  rows.map (fun r =>
    { r with multiallelic := decide (1 < rows.countP (fun s => samePair r s)) })

lemma one_lt_countP_iff {α : Type} (l : List α) (p : α → Bool) (i : ℕ)
    (hi : i < l.length) (hp : p (l.get ⟨i, hi⟩) = true) :
    1 < l.countP p ↔
      ∃ (j : ℕ) (hj : j < l.length), j ≠ i ∧ p (l.get ⟨j, hj⟩) = true := by
  simp only [List.get_eq_getElem] at hp ⊢
  have hcount : l.countP p =
      (l.take i).countP p + ((l.drop (i + 1)).countP p + 1) := by
    conv_lhs =>
      rw [← List.take_append_drop i l, ← List.getElem_cons_drop l i hi]
    rw [List.countP_append, List.countP_cons, hp]
    simp
  constructor
  · intro h
    rw [hcount] at h
    have hpos : 0 < (l.take i).countP p ∨ 0 < (l.drop (i + 1)).countP p := by
      omega
    rcases hpos with hpos | hpos
    · rcases List.countP_pos_iff.mp hpos with ⟨a, ha, hpa⟩
      rcases List.mem_take_iff_getElem.mp ha with ⟨j, hm, hja⟩
      have hji : j < i := lt_of_lt_of_le hm inf_le_left
      have hjl : j < l.length := lt_trans hji hi
      refine ⟨j, hjl, Nat.ne_of_lt hji, ?_⟩
      rw [hja]
      exact hpa
    · rcases List.countP_pos_iff.mp hpos with ⟨a, ha, hpa⟩
      rcases List.getElem_of_mem ha with ⟨j, hj, hja⟩
      have hjl : i + 1 + j < l.length := by
        rw [List.length_drop] at hj
        omega
      refine ⟨i + 1 + j, hjl, by omega, ?_⟩
      rw [← List.getElem_drop l (i := i + 1) (j := j) (h := hj), hja]
      exact hpa
  · rintro ⟨j, hj, hne, hpj⟩
    rw [hcount]
    rcases Nat.lt_or_ge j i with hji | hji
    · have hmem : l[j] ∈ l.take i :=
        List.mem_take_iff_getElem.mpr ⟨j, lt_inf_iff.mpr ⟨hji, hj⟩, rfl⟩
      have : 0 < (l.take i).countP p :=
        List.countP_pos_iff.mpr ⟨l[j], hmem, hpj⟩
      omega
    · have hkd : j - (i + 1) < (l.drop (i + 1)).length := by
        rw [List.length_drop]
        omega
      have heq : (l.drop (i + 1)).get ⟨j - (i + 1), hkd⟩ = l[i + 1 + (j - (i + 1))] :=
        List.getElem_drop l (h := hkd)
      have heq2 : l[i + 1 + (j - (i + 1))] = l[j] := by
        congr 1
        omega
      have hmem : l[j] ∈ l.drop (i + 1) := by
        rw [← heq2, ← heq]
        exact List.get_mem _ _ _
      have : 0 < (l.drop (i + 1)).countP p :=
        List.countP_pos_iff.mpr ⟨l[j], hmem, hpj⟩
      omega

/-- C4: after the multiallelic marking, every row keeps its other columns,
and its multiallelic flag is true exactly when at least one other row of the
table shares its (chrom, pos) pair; a row whose pair is unique keeps the
flag false. -/
theorem multiallelic_flag_spec (rows : List IndexRow) :
    (setMultiallelic rows).length = rows.length ∧
    (∀ (i : ℕ) (r : IndexRow), rows[i]? = some r →
      ∃ r2 : IndexRow, (setMultiallelic rows)[i]? = some r2 ∧
        r2.chrom = r.chrom ∧ r2.name = r.name ∧ r2.pos = r.pos ∧
        r2.seek = r.seek ∧
        (r2.multiallelic = true ↔
          ∃ (j : ℕ) (hj : j < rows.length), j ≠ i ∧
            samePair r (rows.get ⟨j, hj⟩) = true)) := by
  refine ⟨List.length_map _ _, ?_⟩
  intro i r h
  obtain ⟨hi, hire⟩ := List.getElem?_eq_some.mp h
  refine ⟨{ r with
    multiallelic := decide (1 < rows.countP (fun s => samePair r s)) },
    by rw [setMultiallelic, List.getElem?_map, h]; rfl,
    rfl, rfl, rfl, rfl, ?_⟩
  show decide (1 < rows.countP (fun s => samePair r s)) = true ↔ _
  rw [decide_eq_true_eq]
  have hp : (fun s => samePair r s) (rows.get ⟨i, hi⟩) = true := by
    simp only [List.get_eq_getElem, hire]
    simp [samePair]
  rw [one_lt_countP_iff rows _ i hi hp]

/-- Witness for C4, from the worked example of the specification: two rows
at (chrom=1, pos=12345) are both flagged multiallelic, while a lone row at a
distinct position keeps the flag false. -/
theorem multiallelic_flag_spec_witness :
    (∃ r2 : IndexRow,
      (setMultiallelic
        [⟨1, "rs1", 12345, 0, false⟩, ⟨1, "rs2", 12345, 50, false⟩,
         ⟨1, "rs3", 999, 120, false⟩])[0]? = some r2 ∧
      r2.multiallelic = true) ∧
    (∃ r2 : IndexRow,
      (setMultiallelic
        [⟨1, "rs1", 12345, 0, false⟩, ⟨1, "rs2", 12345, 50, false⟩,
         ⟨1, "rs3", 999, 120, false⟩])[2]? = some r2 ∧
      r2.multiallelic = false) := by
  have h := (multiallelic_flag_spec
    [⟨1, "rs1", 12345, 0, false⟩, ⟨1, "rs2", 12345, 50, false⟩,
     ⟨1, "rs3", 999, 120, false⟩]).2
  constructor
  · rcases h 0 ⟨1, "rs1", 12345, 0, false⟩ rfl with
      ⟨r2, hr2, -, -, -, -, hiff⟩
    exact ⟨r2, hr2, hiff.mpr ⟨1, by decide, by decide, by decide⟩⟩
  · rcases h 2 ⟨1, "rs3", 999, 120, false⟩ rfl with
      ⟨r2, hr2, -, -, -, -, hiff⟩
    refine ⟨r2, hr2, ?_⟩
    rcases Bool.eq_false_or_eq_true r2.multiallelic with ht | hf
    · exfalso
      rcases hiff.mp ht with ⟨j, hj, hne, hpair⟩
      have hj3 : j < 3 := by simpa using hj
      interval_cases j
      · simp [samePair] at hpair
      · simp [samePair] at hpair
      · exact hne rfl
    · exact hf

/-- Splitting one record on the field separator, the per-line job of the
`pd.read_csv(fn, sep=sep, ...)` call of `generate_index` (and of the
`line.rstrip(...).split(" ")` of `_parse_impute2_line`), written as a
structural recursion over the characters of the line. -/
def splitFields : List Char → List (List Char)
  | [] => [[]]
  | c :: cs =>
    if c = ' ' then [] :: splitFields cs
    else
      match splitFields cs with
      | [] => [[c]]
      | f :: rest => (c :: f) :: rest

/-- Byte length of one line of the data file: the amount by which `f.tell()`
advances when the line is read. -/
def lineBytes (l : String) : ℕ := l.utf8ByteSize

/-- Model of `_seek_generator`: yields 0, then the stream position
`f.tell()` after each line, i.e. the running sums of the byte lengths of
the lines. -/
def seekGen (sizes : List ℕ) : List ℕ := sizes.scanl (fun a b => a + b) 0

/-- The seek column of `generate_index`:
`np.fromiter(_seek_generator(f), dtype=np.uint)[:-1]` drops the stream
position after the last line, leaving the byte offset at which each record
starts. -/
def seekColumn (sizes : List ℕ) : List ℕ := (seekGen sizes).dropLast

/-- Model of `generate_index`: `pd.read_csv` yields one row per record of
the data file, holding the fields of the record split on the separator, and
`data["seek"] = ...` puts the seek column beside them. -/
def generateIndexRows (lines : List String) : List (List (List Char) × ℕ) :=
  (lines.map (fun l => splitFields l.data)).zip (seekColumn (lines.map lineBytes))

lemma lineBytes_pos (s : String) (h : s ≠ "") : 0 < lineBytes s := by
  cases s with
  | mk data =>
    cases data with
    | nil => exact absurd rfl h
    | cons c cs =>
      have hc := Char.utf8Size_pos c
      simp only [lineBytes, String.utf8ByteSize, String.utf8ByteSize.go]
      omega

lemma scanl_add_closed (sizes : List ℕ) : ∀ c : ℕ,
    sizes.scanl (fun a b => a + b) c =
      (List.range (sizes.length + 1)).map (fun k => c + (sizes.take k).sum) := by
  induction sizes with
  | nil => intro c; simp [List.scanl_nil]
  | cons s rest ih =>
    intro c
    rw [List.scanl_cons, ih (c + s), List.length_cons]
    conv_rhs => rw [List.range_succ_eq_map]
    simp only [List.map_cons, List.map_map, List.singleton_append]
    congr 1
    apply List.map_congr_left
    intro k hk
    simp only [Function.comp_apply, List.take_succ_cons, List.sum_cons]
    omega

lemma sum_take_le_sum_take (sizes : List ℕ) (a b : ℕ) (hab : a ≤ b) :
    (sizes.take a).sum ≤ (sizes.take b).sum := by
  induction b with
  | zero =>
    cases Nat.le_zero.mp hab
    exact le_rfl
  | succ b ihb =>
    rcases Nat.eq_or_lt_of_le hab with h1 | h1
    · subst h1
      exact le_rfl
    · have h2 : (sizes.take b).sum ≤ (sizes.take (b + 1)).sum := by
        rcases Nat.lt_or_ge b sizes.length with hb | hb
        · rw [List.sum_take_succ _ b hb]
          exact Nat.le_add_right _ _
        · rw [List.take_of_length_le hb, List.take_of_length_le (by omega)]
      exact le_trans (ihb (Nat.lt_succ_iff.mp h1)) h2

lemma seekColumn_eq (sizes : List ℕ) :
    seekColumn sizes = (List.range sizes.length).map (fun k => (sizes.take k).sum) := by
  rw [seekColumn, seekGen, scanl_add_closed, List.range_succ, List.map_append]
  simp only [List.map_cons, List.map_nil]
  rw [List.dropLast_concat]
  apply List.map_congr_left
  intro k hk
  simp

/-- C8: index construction yields exactly one row per record of the data
file; the seek value of record `i` is the total byte length of the records
before it (so record 0 has seek 0 and every seek is the byte offset
immediately preceding its record); the seek values are strictly increasing
in record order whenever every line is nonempty (a line yielded by file
iteration always is); and an empty input yields an empty table, not an
error. -/
theorem index_construction_spec (lines : List String) :
    (generateIndexRows lines).length = lines.length ∧
    (∀ (i : ℕ) (l : String), lines[i]? = some l →
      (generateIndexRows lines)[i]? =
        some (splitFields l.data, ((lines.take i).map lineBytes).sum)) ∧
    (lines = [] → generateIndexRows lines = []) ∧
    ((∀ l ∈ lines, l ≠ "") →
      (seekColumn (lines.map lineBytes)).Pairwise (· < ·)) := by
  have hlen : (seekColumn (lines.map lineBytes)).length = lines.length := by
    rw [seekColumn_eq, List.length_map, List.length_range, List.length_map]
  refine ⟨?_, ?_, ?_, ?_⟩
  · rw [generateIndexRows, List.length_zip, List.length_map, hlen, min_self]
  · intro i l h
    have hi : i < lines.length := (List.getElem?_eq_some.mp h).1
    apply List.getElem?_zip_eq_some.mpr
    constructor
    · rw [List.getElem?_map, h]
      rfl
    · rw [seekColumn_eq, List.getElem?_map,
        List.getElem?_range (by rw [List.length_map]; exact hi)]
      simp only [Option.map_some', Option.some.injEq]
      rw [← List.map_take]
  · intro h
    subst h
    rfl
  · intro hne
    rw [seekColumn_eq, List.pairwise_iff_getElem]
    intro i j hi hj hij
    rw [List.length_map, List.length_range, List.length_map] at hi hj
    rw [List.getElem_map, List.getElem_map, List.getElem_range, List.getElem_range]
    have hsi : i < (lines.map lineBytes).length := by rw [List.length_map]; omega
    have hpos : 0 < (lines.map lineBytes)[i] := by
      rw [List.getElem_map]
      exact lineBytes_pos _ (hne _ (List.getElem_mem _))
    calc ((lines.map lineBytes).take i).sum
        < ((lines.map lineBytes).take (i + 1)).sum := by
          rw [List.sum_take_succ _ i hsi]
          omega
      _ ≤ ((lines.map lineBytes).take j).sum :=
          sum_take_le_sum_take _ _ _ (by omega)

/-- Witness for C8 on a concrete two-line file: two rows are produced, the
first record has seek 0, the second has seek 4 (the byte length of the
first line), and the seek column is strictly increasing. -/
theorem index_construction_spec_witness :
    (generateIndexRows ["a b\n", "c d\n"]).length = 2 ∧
    (generateIndexRows ["a b\n", "c d\n"])[0]? =
      some (splitFields "a b\n".data, 0) ∧
    (generateIndexRows ["a b\n", "c d\n"])[1]? =
      some (splitFields "c d\n".data, 4) ∧
    (seekColumn (["a b\n", "c d\n"].map lineBytes)).Pairwise (· < ·) := by
  have h := index_construction_spec ["a b\n", "c d\n"]
  refine ⟨h.1, ?_, ?_, h.2.2.2 (by decide)⟩
  · have := h.2.1 0 "a b\n" rfl
    rw [this]
    rfl
  · have := h.2.1 1 "c d\n" rfl
    rw [this]
    decide

/-- The chromosome integer encoding `CHROM_STR_TO_INT`: the tokens "1" to
"22" map to 1..22, "X" to 23, "Y" to 24, "XY" to 25, "MT" to 26 and
"Unknown" to 0; any other token raises `KeyError` (modelled `none`). -/
def chromStrToInt (c : String) : Option ℕ :=
  if c = "X" then some 23
  else if c = "Y" then some 24
  else if c = "XY" then some 25
  else if c = "MT" then some 26
  else if c = "Unknown" then some 0
  else ((List.range 22).map (fun k => (toString (k + 1), k + 1))).lookup c

/-- The chromosome output decoding `CHROM_STR_ENCODE.get(chrom, chrom)`:
"23", "24", "25", "26" decode to "X", "Y", "XY", "MT"; every other token is
returned unchanged. -/
def chromStrEncode (c : String) : String :=
  if c = "23" then "X"
  else if c = "24" then "Y"
  else if c = "25" then "XY"
  else if c = "26" then "MT"
  else c

/-- Lexicographic comparison of character lists by code point, the order
under Python `sorted` on strings. -/
def charListLe : List Char → List Char → Bool
  | [], _ => true
  | _ :: _, [] => false
  | c :: cs, d :: ds =>
    if c.toNat < d.toNat then true
    else if d.toNat < c.toNat then false
    else charListLe cs ds

/-- Lexicographic comparison of strings by code point. -/
def strLe (a b : String) : Bool := charListLe a.data b.data

/-- Insertion into a sorted list of strings. -/
def orderedInsertStr (a : String) : List String → List String
  | [] => [a]
  | b :: l => if strLe a b then a :: b :: l else b :: orderedInsertStr a l

/-- Modelled from the spec: `Variant._encode_alleles` is defined in
`geneparse/core.py`, which is not among the sources here; the spec only
requires a deterministic allele-pair encoding so two variants compare equal
by alleles regardless of discovery order.  Modelled as sorting the allele
strings (insertion sort on the code-point order). -/
def encodeAlleles : List String → List String
  | [] => []
  | a :: l => orderedInsertStr a (encodeAlleles l)

/-- Modelled from the spec: the `Variant` of `geneparse/core.py`, holding an
identifier, a chromosome token, a 1-based position and an optional encoded
allele pair (`None` when the lookup does not request alleles). -/
structure Variant where
  name : String
  chrom : String
  pos : ℕ
  alleles : Option (List String)
deriving Repr, DecidableEq

/-- Modelled from the spec: the `Genotypes` of `geneparse/core.py`: a
variant, the per-sample dosage vector, the reference and coded allele
strings, and the multiallelic flag. -/
structure Genotypes where
  variant : Variant
  dosage : List (Option ℚ)
  reference : String
  coded : String
  multiallelic : Bool
deriving Repr, DecidableEq

/-- One record line of the IMPUTE2 data file, already tokenised:
`<chrom> <id> <pos> <allele_ref> <allele_coded>` followed by the
probability triples (the splitting itself is `line.rstrip("\r\n").split(" ")`
in `_parse_impute2_line`). -/
structure Line where
  chrom : String
  name : String
  pos : ℕ
  a1 : String
  a2 : String
  probs : List ProbTriple
deriving Repr, DecidableEq

/-- Model of `_parse_impute2_line`: builds the dosage vector from the
probability triples under the reader threshold and returns a `Genotypes`
with the variant of the line, the two alleles of the line as reference and
coded, and `multiallelic=False`. -/
def parseImpute2Line (t : ℚ) (l : Line) : Genotypes :=
  { variant :=
      { name := l.name
        chrom := chromStrEncode l.chrom
        pos := l.pos
        alleles := some (encodeAlleles [l.a1, l.a2]) },
    dosage := decodeDosages t l.probs,
    reference := l.a1,
    coded := l.a2,
    multiallelic := false }

/-- The Python exceptions raised by the reader paths modelled here. -/
inductive RErr where
  /-- `NotImplementedError` for random access without a suitable index. -/
  | unsupportedOperation
  /-- `ValueError("Index file not synced with IMPUTE2 file")`. -/
  | syncError
  /-- a failed Python `assert`. -/
  | assertionFailed
  /-- `AttributeError` on an attribute that was never assigned. -/
  | attributeError
  /-- `KeyError` on a chromosome token missing from `CHROM_STR_TO_INT`. -/
  | keyError
  /-- `IndexError` from `list.pop()` on an empty list. -/
  | indexError
  /-- artefact of the fuel-bounded modelling of the self-recursion of
  `get_variant_by_name`; never reached when every alias chain ends in the
  index. -/
  | fuelExhausted
deriving Repr, DecidableEq

/-- The state of an `Impute2Reader` after `__init__`, restricted to what
the indexed lookups touch.  `file` maps a byte offset to the record
obtained by `seek(offset)` followed by `readline()` and parsing. -/
structure Reader where
  hasIndex : Bool
  index : List IndexRow
  indexHasLocation : Bool
  hasDuplicated : Option Bool
  origNames : List String
  file : ℕ → Line
  probT : ℚ

/-- `get_duplicated_markers`: raises `AttributeError` when
`self._has_duplicated` was never assigned (the reader was opened without an
index); returns the duplicate map (modelled by its key list, the values
being `dupMarkersOf`) when duplicates were found and the empty map
otherwise. -/
def Reader.getDuplicatedMarkers (r : Reader) : Except RErr (List String) :=
  match r.hasDuplicated with
  | none => .error .attributeError
  | some true => .ok (dupKeys r.origNames)
  | some false => .ok []

/-- Python `str.startswith`: the characters of the candidate are a leading
segment of the characters of the string (written over the character lists
so that it evaluates by kernel reduction). -/
def strStartsWith (s pre : String) : Bool := pre.data.isPrefixOf s.data

/-- `_fix_genotypes_object`: when the resolved index name differs from the
record name it must start with it (the duplicate-suffix rename), else
`ValueError("Index file not synced with IMPUTE2 file")` is raised; then,
when the index carries the location columns, the multiallelic flag of the
index row is copied onto the record. -/
def fixGenotypesObject (r : Reader) (row : IndexRow) (g : Genotypes) :
    Except RErr Genotypes :=
  if r.hasIndex = true ∧ row.name ≠ g.variant.name then
    if strStartsWith row.name g.variant.name = false then .error .syncError
    else
      let g2 := { g with variant := { g.variant with name := row.name } }
      .ok (if r.hasIndex = true ∧ r.indexHasLocation = true then
        { g2 with multiallelic := row.multiallelic } else g2)
  else
    .ok (if r.hasIndex = true ∧ r.indexHasLocation = true then
      { g with multiallelic := row.multiallelic } else g)

/-- The seek-parse-fix composite shared by the indexed lookups:
`self._impute2_file.seek(info.seek)`, `_parse_impute2_line(readline())`,
then `_fix_genotypes_object` (this is `get_variant_by_name` when
`variant_info` is passed in). -/
def readRecord (r : Reader) (row : IndexRow) : Except RErr Genotypes :=
  fixGenotypesObject r row (parseImpute2Line r.probT (r.file row.seek))

/-- The body of `get_variant_by_name` when `variant_info` is not supplied:
raises without an index; a direct index hit decodes and fixes one record;
on a miss the duplicate map is consulted and every alias resolved through
`recur` (the recursive call), taking `.pop()` of each one-element result;
otherwise the miss is logged and the empty list returned. -/
def getVariantByNameStep (r : Reader)
    (recur : String → Except RErr (List Genotypes)) (name : String) :
    Except RErr (List Genotypes) :=
  if r.hasIndex = false then .error .unsupportedOperation
  else
    match r.index.find? (fun row => row.name == name) with
    | some row => do
      let g ← readRecord r row
      pure [g]
    | none => do
      let ks ← r.getDuplicatedMarkers
      if name ∈ ks then
        (dupMarkersOf r.origNames name).mapM (fun dn => do
          let res ← recur dn
          match res.getLast? with
          | some g => pure g
          | none => .error .indexError)
      else
        pure []

/-- Model of `get_variant_by_name`, the self-recursion through the
duplicate aliases bounded by fuel (the Python recursion terminates whenever
every alias chain ends in the index). -/
def getVariantByNameAux (r : Reader) : ℕ → String → Except RErr (List Genotypes)
  | 0, _ => .error .fuelExhausted
  | fuel + 1, name => getVariantByNameStep r (getVariantByNameAux r fuel) name

lemma getVariantByNameAux_succ (r : Reader) (fuel : ℕ) (name : String) :
    getVariantByNameAux r (fuel + 1) name =
      getVariantByNameStep r (getVariantByNameAux r fuel) name := rfl

/-- `get_variant_by_name` called without `variant_info`, at a fuel bound
large enough for every terminating alias chain used in the theorems. -/
def getVariantByName (r : Reader) (name : String) : Except RErr (List Genotypes) :=
  getVariantByNameAux r (r.index.length + 2) name

/-- `_get_biallelic_variant` (its only caller passes `_check_alleles=True`):
asserts the single row is not multiallelic, decodes the record at its
offset and returns it, unless the encoded alleles of the record differ from
the requested alleles of the variant, in which case the result is empty. -/
def getBiallelicVariant (r : Reader) (v : Variant) (row : IndexRow) :
    Except RErr (List Genotypes) :=
  if row.multiallelic = true then .error .assertionFailed
  else
    let g := parseImpute2Line r.probT (r.file row.seek)
    if some (encodeAlleles [g.reference, g.coded]) ≠ v.alleles then .ok []
    else .ok [g]

/-- The allele check `row_alleles.issubset(variant.alleles_set)` of
`_get_multialleic_variant`: every encoded allele of the record at the
offset of the row is among the requested alleles. -/
def multiKeep (r : Reader) (als : List String) (row : IndexRow) : Bool :=
  (encodeAlleles [(parseImpute2Line r.probT (r.file row.seek)).reference,
    (parseImpute2Line r.probT (r.file row.seek)).coded]).all
    (fun a => als.contains a)

/-- One iteration of the allele-filtering loop of
`_get_multialleic_variant`: assert the row is multiallelic, decode the
record at its offset, and when its allele pair is a subset of the requested
allele set, fix it and append it to the output. -/
def multiStep (r : Reader) (als : List String) (acc : List Genotypes)
    (row : IndexRow) : Except RErr (List Genotypes) :=
  if row.multiallelic = false then .error .assertionFailed
  else if multiKeep r als row = true then do
    let g2 ← fixGenotypesObject r row (parseImpute2Line r.probT (r.file row.seek))
    pure (acc ++ [g2])
  else pure acc

/-- `_get_multialleic_variant`: asserts every row is multiallelic and
decodes every row at the site; with no requested alleles every record is
fixed and returned; with requested alleles only the records whose encoded
allele pair is a subset of the requested allele set are fixed and kept. -/
def getMultiallelicVariant (r : Reader) (v : Variant) (info : List IndexRow) :
    Except RErr (List Genotypes) :=
  match v.alleles with
  | none => info.mapM (fun row =>
      if row.multiallelic = false then .error .assertionFailed
      else
        fixGenotypesObject r row (parseImpute2Line r.probT (r.file row.seek)))
  | some als => info.foldlM (multiStep r als) []

/-- `get_variant_genotypes`: raises without an index; otherwise looks the
(chrom, pos) of the variant up in the index and dispatches on the number of
matching rows. -/
def getVariantGenotypes (r : Reader) (v : Variant) : Except RErr (List Genotypes) :=
  if r.hasIndex = false then .error .unsupportedOperation
  else
    match chromStrToInt v.chrom with
    | none => .error .keyError
    | some c =>
      match r.index.filter (fun row => row.chrom == c && row.pos == v.pos) with
      | [] => .ok []
      | [row] => getBiallelicVariant r v row
      | info => getMultiallelicVariant r v info

/-- `iter_variants`: raises without an index; otherwise reads the variant
fields at the offset of every index row. -/
def iterVariants (r : Reader) : Except RErr (List Variant) :=
  if r.hasIndex = false then .error .unsupportedOperation
  else .ok (r.index.map (fun row =>
    let l := r.file row.seek
    { name := l.name, chrom := chromStrEncode l.chrom, pos := l.pos,
      alleles := some (encodeAlleles [l.a1, l.a2]) }))

/-- `get_variants_in_region`: raises without an index, and with an index
lacking the location columns; otherwise filters the index rows to the
chromosome and the inclusive position range, resolves each through
`get_variant_by_name(name, variant_info=row)` and fixes each yielded record
once more before yielding it. -/
def getVariantsInRegion (r : Reader) (chrom : String) (start stop : ℕ) :
    Except RErr (List Genotypes) :=
  if r.hasIndex = false then .error .unsupportedOperation
  else if r.indexHasLocation = false then .error .unsupportedOperation
  else
    match chromStrToInt chrom with
    | none => .error .keyError
    | some c =>
      (r.index.filter (fun row =>
        row.chrom == c && decide (start ≤ row.pos) && decide (row.pos ≤ stop))).foldlM
        (fun acc row => do
          let g ← readRecord r row
          let g2 ← fixGenotypesObject r row g
          pure (acc ++ [g2])) []

/-- `Impute2Reader.__init__` restricted to the index handling: `idx = none`
models a data file with no side-car index; `some rows` models the rows
restored by `get_index`.  With an index, the name column goes through the
duplicate resolution (a failed final integrity check raises, modelled as
`none`) and the multiallelic flags are set from the location columns, which
the fixed `get_index(..., names=["chrom", "name", "pos"], ...)` call of
`__init__` guarantees to be present. -/
def mkReader (t : ℚ) (file : ℕ → Line) (idx : Option (List IndexRow)) :
    Option Reader :=
  match idx with
  | none =>
    some { hasIndex := false
           index := []
           indexHasLocation := false
           hasDuplicated := none
           origNames := []
           file := file
           probT := t }
  | some rows =>
    let names := rows.map IndexRow.name
    if names.Nodup then
      some { hasIndex := true
             index := setMultiallelic rows
             indexHasLocation := true
             hasDuplicated := some false
             origNames := names
             file := file
             probT := t }
    else
      let renamed := renameDups names
      if renamed.Nodup then
        some { hasIndex := true
               index := setMultiallelic ((rows.zip renamed).map
                 (fun q => { q.1 with name := q.2 }))
               indexHasLocation := true
               hasDuplicated := some true
               origNames := names
               file := file
               probT := t }
      else none

/-- A concrete data file used by the concrete-input theorems: the record at
byte offset 0 is named `rs1` at position 100, every later offset holds a
second record also named `rs1` at position 200. -/
def exFileDup : ℕ → Line := fun s =>
  if s = 0 then { chrom := "1", name := "rs1", pos := 100, a1 := "A", a2 := "G", probs := [] }
  else { chrom := "1", name := "rs1", pos := 200, a1 := "A", a2 := "C", probs := [] }

/-- Index row of the first duplicated record after resolution. -/
def exRowD1 : IndexRow :=
  { chrom := 1, name := "rs1:dup1", pos := 100, seek := 0, multiallelic := false }

/-- Index row of the second duplicated record after resolution. -/
def exRowD2 : IndexRow :=
  { chrom := 1, name := "rs1:dup2", pos := 200, seek := 30, multiallelic := false }

/-- An indexed reader over `exFileDup` whose original name column held
`rs1` twice, resolved to the aliases of `exRowD1` and `exRowD2`. -/
def exReaderDup : Reader :=
  { hasIndex := true
    index := [exRowD1, exRowD2]
    indexHasLocation := true
    hasDuplicated := some true
    origNames := ["rs1", "rs1"]
    file := exFileDup
    probT := 0 }

/-- The fixed record decoded at `exRowD1`. -/
def exGeno1 : Genotypes :=
  { variant :=
      { name := "rs1:dup1"
        chrom := "1"
        pos := 100
        alleles := some (encodeAlleles ["A", "G"]) }
    dosage := []
    reference := "A"
    coded := "G"
    multiallelic := false }

/-- The fixed record decoded at `exRowD2`. -/
def exGeno2 : Genotypes :=
  { variant :=
      { name := "rs1:dup2"
        chrom := "1"
        pos := 200
        alleles := some (encodeAlleles ["A", "C"]) }
    dosage := []
    reference := "A"
    coded := "C"
    multiallelic := false }

/-- C10: a reader opened on a data file without a side-car index never
assigns the internal duplicate flag, so the duplicated-markers accessor
raises `AttributeError` instead of returning an empty map; an indexed
reader whose name column has no duplicates returns the empty map. -/
theorem duplicated_markers_accessor_spec (t : ℚ) (file : ℕ → Line)
    (rows : List IndexRow) :
    (∀ r : Reader, mkReader t file none = some r →
      r.getDuplicatedMarkers = .error .attributeError) ∧
    ((rows.map IndexRow.name).Nodup →
      ∀ r : Reader, mkReader t file (some rows) = some r →
        r.getDuplicatedMarkers = .ok []) := by
  constructor
  · intro r h
    simp only [mkReader, Option.some.injEq] at h
    subst h
    rfl
  · intro hnodup r h
    simp only [mkReader] at h
    rw [if_pos hnodup] at h
    simp only [Option.some.injEq] at h
    subst h
    rfl

/-- Witness for C10: a concrete unindexed reader raises `AttributeError`
from the accessor, a concrete indexed duplicate-free reader returns the
empty map. -/
theorem duplicated_markers_accessor_spec_witness :
    (∃ r : Reader, mkReader 0 exFileDup none = some r ∧
      r.getDuplicatedMarkers = .error .attributeError) ∧
    (∃ r : Reader, mkReader 0 exFileDup (some [exRowD1]) = some r ∧
      r.getDuplicatedMarkers = .ok []) := by
  have h := duplicated_markers_accessor_spec 0 exFileDup [exRowD1]
  constructor
  · exact ⟨_, rfl, h.1 _ rfl⟩
  · exact ⟨_, rfl, h.2 (by decide) _ rfl⟩

/-- C5: without an index, every random-access operation (lookup by exact
variant, lookup by identifier, region query, variant iteration) fails with
`NotImplementedError` rather than returning an empty result; and a region
query on an indexed reader whose index lacks the location columns fails
with the same error. -/
theorem unsupported_operation_spec (r : Reader) (v : Variant)
    (name chrom : String) (start stop : ℕ) :
    (r.hasIndex = false →
      getVariantGenotypes r v = .error .unsupportedOperation ∧
      getVariantByName r name = .error .unsupportedOperation ∧
      getVariantsInRegion r chrom start stop = .error .unsupportedOperation ∧
      iterVariants r = .error .unsupportedOperation) ∧
    (r.hasIndex = true → r.indexHasLocation = false →
      getVariantsInRegion r chrom start stop = .error .unsupportedOperation) := by
  constructor
  · intro h
    refine ⟨?_, ?_, ?_, ?_⟩
    · simp [getVariantGenotypes, h]
    · rw [getVariantByName]
      show getVariantByNameAux r (r.index.length + 1 + 1) name = _
      rw [getVariantByNameAux_succ]
      simp [getVariantByNameStep, h]
    · simp [getVariantsInRegion, h]
    · simp [iterVariants, h]
  · intro h1 h2
    simp [getVariantsInRegion, h1, h2]

/-- A reader opened without a side-car index. -/
def exReaderNoIdx : Reader :=
  { hasIndex := false
    index := []
    indexHasLocation := false
    hasDuplicated := none
    origNames := []
    file := exFileDup
    probT := 0 }

/-- An indexed reader whose index lacks the location columns. -/
def exReaderNoLoc : Reader :=
  { hasIndex := true
    index := [exRowD1]
    indexHasLocation := false
    hasDuplicated := some false
    origNames := ["rs1:dup1"]
    file := exFileDup
    probT := 0 }

/-- Witness for C5 on concrete readers. -/
theorem unsupported_operation_spec_witness :
    getVariantByName exReaderNoIdx "rs1" = .error .unsupportedOperation ∧
    iterVariants exReaderNoIdx = .error .unsupportedOperation ∧
    getVariantsInRegion exReaderNoLoc "1" 0 1000 = .error .unsupportedOperation := by
  have h := unsupported_operation_spec exReaderNoIdx
    { name := "q", chrom := "1", pos := 1, alleles := none } "rs1" "1" 0 1000
  have h2 := unsupported_operation_spec exReaderNoLoc
    { name := "q", chrom := "1", pos := 1, alleles := none } "rs1" "1" 0 1000
  exact ⟨(h.1 rfl).2.1, (h.1 rfl).2.2.2, h2.2 rfl rfl⟩

/-- C9, counterexample to the claim as stated: at a duplicate-renamed index
entry the resolved identifier `rs1:dup1` disagrees with (differs from) the
identifier `rs1` of the record at its offset, yet the read does not fail:
the record is renamed to the resolved identifier and returned. -/
theorem sync_error_claim_counterexample :
    exRowD1.name ≠
      (parseImpute2Line exReaderDup.probT
        (exReaderDup.file exRowD1.seek)).variant.name ∧
    getVariantByName exReaderDup "rs1:dup1" = .ok [exGeno1] := by
  constructor
  · decide
  · rfl

/-- C9 (amended): the read fails with the sync `ValueError`, and no record
is returned, exactly when the resolved identifier of the index entry does
not start with the identifier of the record found at its offset; a resolved
identifier that merely extends the record identifier (the duplicate-suffix
rename) is copied onto the record instead. -/
theorem sync_error_spec (r : Reader) (name : String) (row : IndexRow)
    (h1 : r.hasIndex = true)
    (h2 : r.index.find? (fun x => x.name == name) = some row)
    (h4 : strStartsWith row.name
      (parseImpute2Line r.probT (r.file row.seek)).variant.name = false)
    (h3 : row.name ≠ (parseImpute2Line r.probT (r.file row.seek)).variant.name) :
    getVariantByName r name = .error .syncError := by
  have hfix : readRecord r row = .error .syncError := by
    simp only [readRecord, fixGenotypesObject]
    rw [if_pos ⟨h1, h3⟩, if_pos h4]
  rw [getVariantByName]
  show getVariantByNameAux r (r.index.length + 1 + 1) name = _
  rw [getVariantByNameAux_succ]
  simp only [getVariantByNameStep, h1, h2, hfix]
  rfl

/-- An index entry whose resolved name does not extend the record found at
its offset (a desynchronised index). -/
def exRowBad : IndexRow :=
  { chrom := 1, name := "zzz", pos := 100, seek := 0, multiallelic := false }

/-- A reader whose index entry `exRowBad` is out of sync with its data
file. -/
def exReaderBad : Reader :=
  { hasIndex := true
    index := [exRowBad]
    indexHasLocation := true
    hasDuplicated := some false
    origNames := ["zzz"]
    file := exFileDup
    probT := 0 }

/-- Witness for the amended C9 on a concrete desynchronised reader. -/
theorem sync_error_spec_witness :
    getVariantByName exReaderBad "zzz" = .error .syncError :=
  sync_error_spec exReaderBad "zzz" exRowBad rfl (by decide) (by decide)
    (by decide)

lemma mapM_except_ok {α β γ : Type} (l : List α) (g : α → Except γ β)
    (f : α → β) (h : ∀ a ∈ l, g a = .ok (f a)) :
    l.mapM g = .ok (l.map f) := by
  induction l with
  | nil => rfl
  | cons x xs ih =>
    rw [List.mapM_cons, h x (List.mem_cons_self x xs),
      ih (fun a ha => h a (List.mem_cons_of_mem x ha)), List.map_cons]
    rfl

/-- C7: on an indexed reader, an identifier absent from the index table but
present as an original colliding name in the duplicate map resolves to one
record per alias, in file order; an identifier absent from both the table
and the map yields the empty result, not an error. -/
theorem name_lookup_duplicate_spec (r : Reader) (name : String)
    (ks : List String) (f : String → Genotypes)
    (h1 : r.hasIndex = true)
    (h2 : r.index.find? (fun row => row.name == name) = none)
    (hks : r.getDuplicatedMarkers = .ok ks) :
    (name ∈ ks →
      (∀ dn ∈ dupMarkersOf r.origNames name,
        ∃ row, r.index.find? (fun x => x.name == dn) = some row ∧
          readRecord r row = .ok (f dn)) →
      getVariantByName r name = .ok ((dupMarkersOf r.origNames name).map f)) ∧
    (name ∉ ks → getVariantByName r name = .ok []) := by
  constructor
  · intro hmem hall
    rw [getVariantByName]
    show getVariantByNameAux r (r.index.length + 1 + 1) name = _
    rw [getVariantByNameAux_succ]
    simp only [getVariantByNameStep, h1, h2, hks]
    show (if name ∈ ks then _ else pure []) = _
    rw [if_pos hmem]
    apply mapM_except_ok
    intro dn hdn
    rcases hall dn hdn with ⟨row, hfind, hread⟩
    have hinner : getVariantByNameAux r (r.index.length + 1) dn = .ok [f dn] := by
      rw [getVariantByNameAux_succ]
      simp only [getVariantByNameStep, h1, hfind, hread]
      rfl
    simp only [hinner]
    rfl
  · intro hnot
    rw [getVariantByName]
    show getVariantByNameAux r (r.index.length + 1 + 1) name = _
    rw [getVariantByNameAux_succ]
    simp only [getVariantByNameStep, h1, h2, hks]
    show (if name ∈ ks then _ else pure []) = _
    rw [if_neg hnot]
    rfl

/-- Witness for C7: on the concrete duplicated reader, looking up the
original colliding name `rs1` yields the records of `rs1:dup1` and
`rs1:dup2` in file order, and looking up an absent name yields the empty
result. -/
theorem name_lookup_duplicate_spec_witness :
    getVariantByName exReaderDup "rs1" = .ok [exGeno1, exGeno2] ∧
    getVariantByName exReaderDup "absent" = .ok [] := by
  have h := name_lookup_duplicate_spec exReaderDup "rs1" ["rs1"]
    (fun dn => if dn = "rs1:dup1" then exGeno1 else exGeno2)
    rfl (by decide) rfl
  have h2 := name_lookup_duplicate_spec exReaderDup "absent" ["rs1"]
    (fun _ => exGeno1) rfl (by decide) rfl
  constructor
  · refine Eq.trans (h.1 (by decide) ?_) ?_
    · intro dn hdn
      have hdup : dupMarkersOf exReaderDup.origNames "rs1" =
          ["rs1:dup1", "rs1:dup2"] := rfl
      rw [hdup] at hdn
      simp only [List.mem_cons, List.not_mem_nil, or_false] at hdn
      rcases hdn with rfl | rfl
      · exact ⟨exRowD1, rfl, rfl⟩
      · exact ⟨exRowD2, rfl, rfl⟩
    · rfl
  · exact h2.2 (by decide)

lemma multi_fold (r : Reader) (als : List String) (f : IndexRow → Genotypes) :
    ∀ (info : List IndexRow) (acc : List Genotypes),
      (∀ row ∈ info, row.multiallelic = true) →
      (∀ row ∈ info, fixGenotypesObject r row
        (parseImpute2Line r.probT (r.file row.seek)) = .ok (f row)) →
      info.foldlM (multiStep r als) acc =
        .ok (acc ++ (info.filter (multiKeep r als)).map f) := by
  intro info
  induction info with
  | nil =>
    intro acc _ _
    show Except.ok acc = _
    simp
  | cons row rest ih =>
    intro acc hmulti hfix
    have hm := hmulti row (List.mem_cons_self row rest)
    by_cases hk : multiKeep r als row = true
    · have hstep : multiStep r als acc row = .ok (acc ++ [f row]) := by
        simp only [multiStep, hm, hk]
        rw [hfix row (List.mem_cons_self row rest)]
        rfl
      rw [List.foldlM_cons, hstep]
      show List.foldlM (multiStep r als) (acc ++ [f row]) rest = _
      rw [ih (acc ++ [f row]) (fun a ha => hmulti a (List.mem_cons_of_mem _ ha))
        (fun a ha => hfix a (List.mem_cons_of_mem _ ha)),
        List.filter_cons_of_pos hk, List.map_cons]
      simp
    · have hk2 : multiKeep r als row = false := by
        cases hmk : multiKeep r als row
        · rfl
        · exact absurd hmk hk
      have hstep : multiStep r als acc row = .ok acc := by
        simp only [multiStep, hm, hk2]
        rfl
      rw [List.foldlM_cons, hstep]
      show List.foldlM (multiStep r als) acc rest = _
      rw [ih acc (fun a ha => hmulti a (List.mem_cons_of_mem _ ha))
        (fun a ha => hfix a (List.mem_cons_of_mem _ ha)),
        List.filter_cons_of_neg hk]

lemma getMultiallelicVariant_none_eq (r : Reader) (v : Variant)
    (hv : v.alleles = none) (f : IndexRow → Genotypes) (info : List IndexRow)
    (hmulti : ∀ row ∈ info, row.multiallelic = true)
    (hfix : ∀ row ∈ info, fixGenotypesObject r row
      (parseImpute2Line r.probT (r.file row.seek)) = .ok (f row)) :
    getMultiallelicVariant r v info = .ok (info.map f) := by
  simp only [getMultiallelicVariant, hv]
  apply mapM_except_ok
  intro row hrow
  simp only [hmulti row hrow]
  exact hfix row hrow

lemma getMultiallelicVariant_some_eq (r : Reader) (v : Variant)
    (als : List String) (hv : v.alleles = some als) (f : IndexRow → Genotypes)
    (info : List IndexRow)
    (hmulti : ∀ row ∈ info, row.multiallelic = true)
    (hfix : ∀ row ∈ info, fixGenotypesObject r row
      (parseImpute2Line r.probT (r.file row.seek)) = .ok (f row)) :
    getMultiallelicVariant r v info =
      .ok ((info.filter (multiKeep r als)).map f) := by
  simp only [getMultiallelicVariant, hv]
  rw [multi_fold r als f info [] hmulti hfix]
  simp

/-- C3: for a lookup by exact (chromosome, position) on an indexed reader:
when exactly one index entry matches, the requested alleles were given, and
the encoded allele pair of the decoded record differs from them, the result
is the empty list and no error; when at least two entries match and alleles
were requested, the result holds exactly the decoded-and-fixed records
whose allele pair is a subset of the requested allele set; when at least
two entries match and no alleles were requested, the result holds every
decoded-and-fixed record at the site. -/
theorem variant_lookup_spec (r : Reader) (v : Variant) (c : ℕ)
    (h1 : r.hasIndex = true)
    (hc : chromStrToInt v.chrom = some c) :
    (∀ row : IndexRow,
      r.index.filter (fun x => x.chrom == c && x.pos == v.pos) = [row] →
      row.multiallelic = false →
      ∀ als : List String, v.alleles = some als →
      encodeAlleles [(parseImpute2Line r.probT (r.file row.seek)).reference,
        (parseImpute2Line r.probT (r.file row.seek)).coded] ≠ als →
      getVariantGenotypes r v = .ok []) ∧
    (∀ info : List IndexRow,
      r.index.filter (fun x => x.chrom == c && x.pos == v.pos) = info →
      2 ≤ info.length →
      (∀ row ∈ info, row.multiallelic = true) →
      ∀ f : IndexRow → Genotypes,
      (∀ row ∈ info, fixGenotypesObject r row
        (parseImpute2Line r.probT (r.file row.seek)) = .ok (f row)) →
      ((v.alleles = none → getVariantGenotypes r v = .ok (info.map f)) ∧
       (∀ als : List String, v.alleles = some als →
        getVariantGenotypes r v =
          .ok ((info.filter (multiKeep r als)).map f)))) := by
  constructor
  · intro row hfilter hm als hals hne
    simp only [getVariantGenotypes, h1, hc]
    rw [hfilter]
    simp only [getBiallelicVariant, hm]
    rw [hals, if_pos (fun heq => hne (Option.some.inj heq))]
    rfl
  · intro info hfilter hlen hmulti f hfix
    have hdispatch : getVariantGenotypes r v = getMultiallelicVariant r v info := by
      simp only [getVariantGenotypes, h1, hc]
      rw [hfilter]
      rcases info with _ | ⟨a, _ | ⟨b, rest⟩⟩
      · simp at hlen
      · simp at hlen
      · rfl
    constructor
    · intro hv
      rw [hdispatch]
      exact getMultiallelicVariant_none_eq r v hv f info hmulti hfix
    · intro als hv
      rw [hdispatch]
      exact getMultiallelicVariant_some_eq r v als hv f info hmulti hfix

/-- A concrete data file with three records at the multiallelic site
(1, 12345), carrying the allele pairs (A, T), (A, G) and (A, C). -/
def exFileM : ℕ → Line := fun s =>
  if s = 0 then { chrom := "1", name := "m1", pos := 12345, a1 := "A", a2 := "T", probs := [] }
  else if s = 40 then { chrom := "1", name := "m2", pos := 12345, a1 := "A", a2 := "G", probs := [] }
  else { chrom := "1", name := "m3", pos := 12345, a1 := "A", a2 := "C", probs := [] }

/-- First index row of the multiallelic site. -/
def exRowM1 : IndexRow :=
  { chrom := 1, name := "m1", pos := 12345, seek := 0, multiallelic := true }

/-- Second index row of the multiallelic site. -/
def exRowM2 : IndexRow :=
  { chrom := 1, name := "m2", pos := 12345, seek := 40, multiallelic := true }

/-- Third index row of the multiallelic site. -/
def exRowM3 : IndexRow :=
  { chrom := 1, name := "m3", pos := 12345, seek := 80, multiallelic := true }

/-- An indexed reader over the multiallelic site of `exFileM`. -/
def exReaderM : Reader :=
  { hasIndex := true
    index := [exRowM1, exRowM2, exRowM3]
    indexHasLocation := true
    hasDuplicated := some false
    origNames := ["m1", "m2", "m3"]
    file := exFileM
    probT := 0 }

/-- The fixed record of the (A, T) entry of the multiallelic site. -/
def exGenoM1 : Genotypes :=
  { variant :=
      { name := "m1"
        chrom := "1"
        pos := 12345
        alleles := some (encodeAlleles ["A", "T"]) }
    dosage := []
    reference := "A"
    coded := "T"
    multiallelic := true }

/-- Witness for C3, from the worked example of the specification: at a
multiallelic site with recorded pairs (A, T), (A, G), (A, C), requesting
the alleles A and T returns only the (A, T) record; and at a biallelic
entry whose record carries (A, G), requesting the alleles A and T returns
the empty result. -/
theorem variant_lookup_spec_witness :
    getVariantGenotypes exReaderM
      { name := "m1", chrom := "1", pos := 12345,
        alleles := some (encodeAlleles ["A", "T"]) } = .ok [exGenoM1] ∧
    getVariantGenotypes exReaderBad
      { name := "rs1", chrom := "1", pos := 100,
        alleles := some (encodeAlleles ["A", "T"]) } = .ok [] := by
  constructor
  · have h := (variant_lookup_spec exReaderM
      { name := "m1", chrom := "1", pos := 12345,
        alleles := some (encodeAlleles ["A", "T"]) }
      1 rfl (by decide)).2
      [exRowM1, exRowM2, exRowM3] (by decide) (by decide) (by decide)
      (fun row => { parseImpute2Line exReaderM.probT (exReaderM.file row.seek)
        with multiallelic := true })
      (by
        intro row hrow
        simp only [List.mem_cons, List.not_mem_nil, or_false] at hrow
        rcases hrow with rfl | rfl | rfl <;> rfl)
    have hval : (([exRowM1, exRowM2, exRowM3].filter
        (multiKeep exReaderM (encodeAlleles ["A", "T"]))).map
        (fun row => { parseImpute2Line exReaderM.probT (exReaderM.file row.seek)
          with multiallelic := true })) = [exGenoM1] := by decide
    rw [h.2 (encodeAlleles ["A", "T"]) rfl, hval]
  · exact (variant_lookup_spec exReaderBad
      { name := "rs1", chrom := "1", pos := 100,
        alleles := some (encodeAlleles ["A", "T"]) }
      1 rfl (by decide)).1
      exRowBad (by decide) rfl (encodeAlleles ["A", "T"]) rfl (by decide)

/-- `_CHECK_STRING`, the fixed literal header of the side-car index file. -/
def checkString : String := "GENIPE INDEX FILE"

/-- A persisted side-car index file as `read_index` sees it: the leading
bytes (what `i_file.read(len(_CHECK_STRING))` returns) and the table parsed
back from the decompressed remainder (modelled already parsed, the
compression round-trip being the identity on the stored table). -/
structure SidecarFile where
  leading : String
  cols : List String
  rows : List (List String)

/-- The errors of the index read path. -/
inductive IdxErr where
  /-- `ValueError("...: not a valid index file")`. -/
  | corruptIndex
  /-- `ValueError("...: missing index columns: reindex")` or
  `ValueError("...: invalid index: reindex")`. -/
  | staleIndex
deriving Repr, DecidableEq

/-- The table returned by a successful index read. -/
structure StoredIndex where
  cols : List String
  rows : List (List String)
deriving Repr, DecidableEq

/-- `read_index`: fails unless the leading bytes equal the fixed header
exactly; otherwise decompresses and parses the remainder back into the
table. -/
def readIndex (f : SidecarFile) : Except IdxErr StoredIndex :=
  if f.leading ≠ checkString then .error .corruptIndex
  else .ok { cols := f.cols, rows := f.rows }

/-- `get_index` when the side-car exists: read the index, fail unless every
requested column name is among the parsed columns other than "seek"
(`len(set(names) - (set(file_index.columns) - QUOTE-seek-QUOTE)) != 0`),
then fail unless "seek" itself is a parsed column. -/
def getIndexStored (f : SidecarFile) (names : List String) :
    Except IdxErr StoredIndex := do
  let idx ← readIndex f
  if names.any (fun n => !(idx.cols.contains n && !(n == "seek"))) = true then
    .error .staleIndex
  else if idx.cols.contains "seek" = false then
    .error .staleIndex
  else pure idx

lemma except_bind_ok {ε α β : Type} (a : α) (g : α → Except ε β) :
    (Except.ok a >>= g) = g a := rfl

/-- C6: reading a persisted side-car index fails with the corrupt-index
error when the leading bytes differ from the fixed header; otherwise it
fails with the stale-index error when some caller-requested column, or the
seek column, is absent from the parsed table; and an index is returned only
when the header matched and every required column is present — never a
degraded one. -/
theorem sidecar_read_spec (f : SidecarFile) (names : List String) :
    (f.leading ≠ checkString →
      getIndexStored f names = .error .corruptIndex) ∧
    (f.leading = checkString →
      (∃ n ∈ names, n ∉ f.cols) →
      getIndexStored f names = .error .staleIndex) ∧
    (f.leading = checkString → "seek" ∉ f.cols →
      getIndexStored f names = .error .staleIndex) ∧
    (∀ idx : StoredIndex, getIndexStored f names = .ok idx →
      f.leading = checkString ∧ idx.cols = f.cols ∧ idx.rows = f.rows ∧
      (∀ n ∈ names, n ∈ f.cols) ∧ "seek" ∈ f.cols) := by
  refine ⟨?_, ?_, ?_, ?_⟩
  · intro h
    simp only [getIndexStored, readIndex, if_pos h]
    rfl
  · intro hl hex
    have hread : readIndex f = .ok ⟨f.cols, f.rows⟩ := by
      simp only [readIndex, if_neg (not_ne_iff.mpr hl)]
    simp only [getIndexStored, hread, except_bind_ok]
    have hany : names.any (fun n => !(f.cols.contains n && !(n == "seek"))) = true := by
      rcases hex with ⟨n, hn, hnotmem⟩
      apply List.any_eq_true.mpr
      refine ⟨n, hn, ?_⟩
      cases hcc : f.cols.contains n with
      | false => simp
      | true => exact absurd (List.mem_of_elem_eq_true hcc) hnotmem
    rw [if_pos hany]
  · intro hl hseek
    have hread : readIndex f = .ok ⟨f.cols, f.rows⟩ := by
      simp only [readIndex, if_neg (not_ne_iff.mpr hl)]
    simp only [getIndexStored, hread, except_bind_ok]
    by_cases hany : names.any (fun n => !(f.cols.contains n && !(n == "seek"))) = true
    · rw [if_pos hany]
    · rw [if_neg hany]
      have hsc : f.cols.contains "seek" = false := by
        cases hcc : f.cols.contains "seek" with
        | false => rfl
        | true => exact absurd (List.mem_of_elem_eq_true hcc) hseek
      rw [if_pos hsc]
  · intro idx h
    by_cases hl : f.leading = checkString
    · have hread : readIndex f = .ok ⟨f.cols, f.rows⟩ := by
        simp only [readIndex, if_neg (not_ne_iff.mpr hl)]
      simp only [getIndexStored, hread, except_bind_ok] at h
      by_cases hany : names.any (fun n => !(f.cols.contains n && !(n == "seek"))) = true
      · rw [if_pos hany] at h
        simp at h
      · rw [if_neg hany] at h
        by_cases hsc : f.cols.contains "seek" = false
        · rw [if_pos hsc] at h
          simp at h
        · rw [if_neg hsc] at h
          have hidx : ({ cols := f.cols, rows := f.rows } : StoredIndex) = idx :=
            Except.ok.inj h
          subst hidx
          have hseekmem : "seek" ∈ f.cols := by
            cases hcc : f.cols.contains "seek" with
            | false => exact absurd hcc hsc
            | true => exact List.mem_of_elem_eq_true hcc
          refine ⟨hl, rfl, rfl, ?_, hseekmem⟩
          intro n hn
          have hfalse : (fun n => !(f.cols.contains n && !(n == "seek"))) n = false := by
            cases hp : (fun n => !(f.cols.contains n && !(n == "seek"))) n with
            | false => rfl
            | true => exact absurd (List.any_eq_true.mpr ⟨n, hn, hp⟩) hany
          simp only [Bool.not_eq_false', Bool.and_eq_true] at hfalse
          exact List.mem_of_elem_eq_true hfalse.1
    · have h2 : getIndexStored f names = .error .corruptIndex := by
        simp only [getIndexStored, readIndex, if_pos hl]
        rfl
      rw [h2] at h
      simp at h

/-- Witness for C6 on concrete side-car files: a wrong header gives the
corrupt-index error; a recognised header with a missing requested column,
or with a missing seek column, gives the stale-index error; a complete file
loads and its columns are intact. -/
theorem sidecar_read_spec_witness :
    getIndexStored
      { leading := "NOT A VALID HEADER", cols := ["chrom", "name", "pos", "seek"],
        rows := [] } ["chrom", "name", "pos"] = .error .corruptIndex ∧
    getIndexStored
      { leading := "GENIPE INDEX FILE", cols := ["chrom", "name", "seek"],
        rows := [] } ["chrom", "name", "pos"] = .error .staleIndex ∧
    getIndexStored
      { leading := "GENIPE INDEX FILE", cols := ["chrom", "name", "pos"],
        rows := [] } ["chrom", "name", "pos"] = .error .staleIndex ∧
    ("seek" ∈ (["chrom", "name", "pos", "seek"] : List String) ∧
      ∀ n ∈ (["chrom", "name", "pos"] : List String),
        n ∈ (["chrom", "name", "pos", "seek"] : List String)) := by
  refine ⟨?_, ?_, ?_, ?_⟩
  · exact (sidecar_read_spec _ _).1 (by decide)
  · exact (sidecar_read_spec _ _).2.1 rfl ⟨"pos", by decide, by decide⟩
  · exact (sidecar_read_spec _ _).2.2.1 rfl (by decide)
  · have h := (sidecar_read_spec
      { leading := "GENIPE INDEX FILE", cols := ["chrom", "name", "pos", "seek"],
        rows := [] } ["chrom", "name", "pos"]).2.2.2
      { cols := ["chrom", "name", "pos", "seek"], rows := [] } rfl
    exact ⟨h.2.2.2.2, h.2.2.2.1⟩

/-- C1: for every flat sequence of per-sample probability triples and every
threshold `t` in `[0,1]`, the decoder produces one dosage per sample;
sample `i` gets `2 * p_hom_coded[i] + p_het[i]`, replaced by NaN (`none`)
exactly when `t > 0` and all three probabilities of the sample are below `t`;
when `t = 0` no sample is ever masked.  The decoder is a pure function of the
triples and `t`. -/
theorem dosage_decoder_spec (t : ℚ) (prob : List ProbTriple)
    (ht0 : 0 ≤ t) (ht1 : t ≤ 1) :
    (decodeDosages t prob).length = prob.length ∧
    (∀ (i : ℕ) (p : ProbTriple), prob[i]? = some p →
      (decodeDosages t prob)[i]? =
        some (if 0 < t ∧ p.homRef < t ∧ p.het < t ∧ p.homCoded < t
          then none
          else some (2 * p.homCoded + p.het))) ∧
    (t = 0 → ∀ d ∈ decodeDosages t prob, d ≠ none) := by
  refine ⟨List.length_map _ _, ?_, ?_⟩
  · intro i p hp
    rw [decodeDosages, List.getElem?_map, hp]
    simp only [Option.map_some']
    congr 1
    rw [sampleDosage, rawDosage, anyProbGe]
    by_cases h0 : 0 < t
    · by_cases hmask : p.homRef < t ∧ p.het < t ∧ p.homCoded < t
      · rw [if_pos, if_pos ⟨h0, hmask⟩]
        refine ⟨h0, ?_⟩
        simp only [Bool.or_eq_false_iff, decide_eq_false_iff_not, not_le]
        exact ⟨⟨hmask.1, hmask.2.1⟩, hmask.2.2⟩
      · rw [if_neg, if_neg]
        · exact fun hc => hmask hc.2
        · rintro ⟨-, hall⟩
          simp only [Bool.or_eq_false_iff, decide_eq_false_iff_not, not_le] at hall
          exact hmask ⟨hall.1.1, hall.1.2, hall.2⟩
    · rw [if_neg (fun hc => h0 hc.1), if_neg (fun hc => h0 hc.1)]
  · intro ht0' d hd
    rcases List.mem_map.mp hd with ⟨p, -, rfl⟩
    subst ht0'
    simp [sampleDosage]

/-- Witness for C1, from the worked example of the specification: at
threshold 0.9 the triple (0.05, 0.05, 0.90) decodes to dosage 1.85 and is not
masked, while the triple (0.3, 0.3, 0.4) is masked to NaN. -/
theorem dosage_decoder_spec_witness :
    (decodeDosages (9/10)
        [⟨1/20, 1/20, 9/10⟩, ⟨3/10, 3/10, 2/5⟩])[0]? = some (some (37/20)) ∧
    (decodeDosages (9/10)
        [⟨1/20, 1/20, 9/10⟩, ⟨3/10, 3/10, 2/5⟩])[1]? = some none := by
  have h := dosage_decoder_spec (9/10)
    [⟨1/20, 1/20, 9/10⟩, ⟨3/10, 3/10, 2/5⟩] (by norm_num) (by norm_num)
  have h0 := h.2.1 0 ⟨1/20, 1/20, 9/10⟩ rfl
  have h1 := h.2.1 1 ⟨3/10, 3/10, 2/5⟩ rfl
  constructor
  · rw [h0, if_neg]
    · norm_num
    · norm_num
  · rw [h1, if_pos]
    norm_num

end Geneparse
